import Mathlib

/-!
# A shallow embedding of PyInterfacer's `Interface` (interface.py)

This file embeds the component-parsing pipeline and the per-frame
update/draw contract of `pyinterfacer/interface/interface.py` and proves
properties of that embedding.

Python dictionaries holding a component declaration are embedded as
association lists from attribute names to `Value`s.  Python's dynamic
values that actually occur in component declarations are embedded by the
`Value` inductive: integers, strings, lists of strings (style class name
lists), `None`, and pairs (used by the `pos`/`size` tuples built during
parsing).

Python floats are embedded as exact rationals together with the rounding
function `fl64`, which maps a rational to the nearest IEEE-754 binary64
value (round to nearest, ties to even): every float produced along the
percentage-resolution path (`float(...)`, the division by 100, the
`width * percent` product) is wrapped in `fl64`, reproducing the source's
double arithmetic bit for bit — including cases such as `int(100 * 0.29)`
evaluating to 28.  The grid-centering path needs no rounding: its
intermediates `column*gw + gw/2` are half-integers, exactly representable
in binary64, so exact rational arithmetic coincides with the source there.
-/

set_option allowUnsafeReducibility true

attribute [semireducible] Rat.mul Rat.inv Rat.add Rat.sub Rat.div Rat.neg Rat.normalize Rat.floor Rat.ceil

namespace PyInterfacer

/-- A Python value as it occurs in a component declaration dictionary. -/
inductive Value : Type
  | vInt (n : ℤ)
  | vStr (s : String)
  | vStrList (l : List String)
  | vNone
  | vPair (a b : Value)
  deriving DecidableEq, Repr

/-- A component declaration dictionary: an association list from attribute
names to values, first binding wins on lookup (Python dict keys are unique,
and our `dset` overwrites in place, preserving that reading). -/
abbrev Dict := List (String × Value)

/-- Python `component[attr]` lookup (`None`-free: absence is `none`). -/
def dget (d : Dict) (k : String) : Option Value :=
  d.lookup k

/-- Python `component[attr] = value`: overwrite the binding in place if the
key is present, append it otherwise (Python dicts keep insertion order). -/
def dset (d : Dict) (k : String) (v : Value) : Dict :=
  match d with
  | [] => [(k, v)]
  | (k', v') :: rest => if k' == k then (k', v) :: rest else (k', v') :: dset rest k v

/-- Python `attr in component`. -/
def dmem (d : Dict) (k : String) : Bool :=
  (dget d k).isSome

/-- A style-class table: maps a style class name to its attribute mapping,
in declaration order (as `self._style_classes` does). -/
abbrev Styles := List (String × List (String × Value))

/-- The body of the style-application loop of
`Interface.__parse_style_classes`: for each `(attr, value)` item of the
class's mapping, assign it on the component only if the attribute is not
already present. -/
def applyClass (m : List (String × Value)) (comp : Dict) : Dict :=
  m.foldl (fun c av => if dmem c av.1 then c else dset c av.1 av.2) comp

/-- The multi-class loop of `Interface.__parse_style_classes`: iterate the
listed style names in order, applying each one that is a known style class. -/
def applyStylesList (sc : Styles) (l : List String) (comp : Dict) : Dict :=
  l.foldl (fun c s =>
    match sc.lookup s with
    | some m => applyClass m c
    | none => c) comp

/-- `Interface.__parse_style_classes`.  A `"style"` value that is a string
names a single class (if known); otherwise the source falls through to
`len(component["style"])` and iterates the value — for a string that means
iterating its characters as class names, for a list its elements.  A
`"style"` value on which Python's `len` fails raises (embedded as
`Except.error`). -/
def parseStyleClasses (styles : Option Styles) (comp : Dict) : Except String Dict :=
  match dget comp "style", styles with
  | some sv, some sc =>
    match sv with
    | .vStr s =>
      match sc.lookup s with
      | some m => .ok (applyClass m comp)
      | none =>
        if s.length == 0 then .ok comp
        else .ok (applyStylesList sc (s.toList.map (fun ch => String.singleton ch)) comp)
    | .vStrList l =>
      if l.length == 0 then .ok comp
      else .ok (applyStylesList sc l comp)
    | _ => .error "TypeError: object has no len()"
  | _, _ => .ok comp

/-- The value the spec's words assign to an absent attribute resolved from a
list of style classes: the earliest listed class that is known and declares
the attribute provides the value (used to compare the source's behaviour
against the specified priority order). -/
def specEarliestClassValue (sc : Styles) (l : List String) (attr : String) : Option Value :=
  match l with
  | [] => none
  | s :: rest =>
    match sc.lookup s with
    | some m =>
      match m.lookup attr with
      | some v => some v
      | none => specEarliestClassValue sc rest attr
    | none => specEarliestClassValue sc rest attr

/-- Python `int(q)` on an exact numeric value: truncation toward zero. -/
def pyTrunc (q : ℚ) : ℤ :=
  q.num.tdiv q.den

/-- Decimal digit value of a character, `none` if not a digit. -/
def digitVal (c : Char) : Option ℕ :=
  if c.isDigit then some (c.toNat - 48) else none

/-- Parse a nonempty all-digit character list as a natural number. -/
def parseNatDigits (cs : List Char) : Option ℕ :=
  match cs with
  | [] => none
  | _ => cs.foldl (fun acc c => acc.bind fun a => (digitVal c).map fun d => a * 10 + d) (some 0)

/-- Parse a decimal literal (optional leading minus, digits, optional single
point and fraction digits) as an exact rational, as Python's `float`
constructor would at such inputs. -/
def parseDecimalCore (cs : List Char) : Option ℚ :=
  match cs.splitOn '.' with
  | [w] => (parseNatDigits w).map (fun n => (n : ℚ))
  | [w, f] =>
    (parseNatDigits w).bind fun n =>
      (parseNatDigits f).map fun m => (n : ℚ) + (m : ℚ) / (10 : ℚ) ^ f.length
  | _ => none

/-- Parse a decimal literal (optional leading minus, digits, optional single
point and fraction digits) as an exact rational, as Python's `float`
constructor would at such inputs. -/
def parseDecimal (s : String) : Option ℚ :=
  match s.toList with
  | '-' :: rest => (parseDecimalCore rest).map (fun q => -q)
  | cs => parseDecimalCore cs

/-- Fuel-driven `⌊log₂ n⌋` on naturals (0 for `n ≤ 1`), structurally
recursive so the kernel can evaluate it. -/
def natLog2F : ℕ → ℕ → ℕ
  | 0, _ => 0
  | fuel + 1, n => if n ≤ 1 then 0 else natLog2F fuel (n / 2) + 1

/-- `⌊log₂ n⌋` (0 for `n ≤ 1`). -/
def natLog2 (n : ℕ) : ℕ :=
  natLog2F n n

/-- `⌊log₂ q⌋` for a positive rational: the estimate from the numerator and
denominator bit lengths, corrected by one comparison. -/
def floorLog2 (q : ℚ) : ℤ :=
  let e0 : ℤ := (natLog2 q.num.toNat : ℤ) - (natLog2 q.den : ℤ)
  if (2 : ℚ) ^ e0 ≤ q then e0 else e0 - 1

/-- Round a rational to the nearest integer, ties to even (the IEEE-754
default rounding used by every float operation the source performs). -/
def rne (q : ℚ) : ℤ :=
  let f := ⌊q⌋
  let r := q - (f : ℚ)
  if r < 1 / 2 then f
  else if 1 / 2 < r then f + 1
  else if f % 2 = 0 then f else f + 1

/-- The nearest binary64 value to a positive rational: a 53-bit significand
`m ∈ [2^52, 2^53]` at the scale fixed by `⌊log₂ q⌋`, rounded to nearest
with ties to even. -/
def fl64pos (q : ℚ) : ℚ :=
  let s : ℤ := 52 - floorLog2 q
  if 0 ≤ s then (rne (q * ((2 ^ s.toNat : ℕ) : ℚ)) : ℚ) / ((2 ^ s.toNat : ℕ) : ℚ)
  else (rne (q / ((2 ^ (-s).toNat : ℕ) : ℚ)) : ℚ) * ((2 ^ (-s).toNat : ℕ) : ℚ)

/-- IEEE-754 binary64 rounding (round to nearest, ties to even) of an exact
rational, with unbounded exponent: overflow, underflow and subnormals are
not modelled, which is faithful for every magnitude the interface parser
encounters.  Wrapping each float operation's exact result in `fl64` models
CPython's double arithmetic exactly. -/
def fl64 (q : ℚ) : ℚ :=
  if q = 0 then 0
  else if q < 0 then -fl64pos (-q) else fl64pos q

/-- Modelled from the spec: `percent_to_float` (from the util module, whose
source is not included) converts a percentage string such as `"50%"` to the
binary64 value of `float(digits)/100`: the decimal is parsed to the nearest
double and the division by 100 is a correctly rounded double division; an
unparsable percentage raises (embedded as `none`, which the callers turn
into an error). -/
def percent_to_float (s : String) : Option ℚ :=
  (parseDecimal ((s.toList.filter (fun c => c ≠ '%')).asString)).map
    (fun q => fl64 (fl64 q / 100))

/-- One conversion step of `Interface.__parse_percentage_values`: if the
attribute is present, is a string, and contains a `%`, replace it with
`int(base * percent_to_float(value))` — the integer base is converted to a
double (`fl64 b`, exact below `2^53`), the product is a correctly rounded
double multiplication, and `int(...)` truncates toward zero; a missing
base (the `None` grid cell size) or an unparsable percentage raises. -/
def convertPct (comp : Dict) (key : String) (base : Option ℤ) : Except String Dict :=
  match dget comp key with
  | some (.vStr w) =>
    if w.toList.contains '%' then
      match base, percent_to_float w with
      | some b, some p => .ok (dset comp key (.vInt (pyTrunc (fl64 (fl64 (b : ℚ) * p)))))
      | none, _ => .error "TypeError: unsupported operand type(s) for *: NoneType and float"
      | _, none => .error "ValueError: could not convert string to float"
    else .ok comp
  | _ => .ok comp

/-- `Interface.__parse_percentage_values`.  The conversion base for
`width`/`x` (resp. `height`/`y`) is the grid cell width (resp. height) when
the component carries a `grid_cell` key, and the interface width (resp.
height) otherwise.  The four attributes are converted in source order. -/
def parsePercentageValues (size : ℤ × ℤ) (comp : Dict) (gw gh : Option ℤ) :
    Except String Dict :=
  let width := if dmem comp "grid_cell" then gw else some size.1
  let height := if dmem comp "grid_cell" then gh else some size.2
  match convertPct comp "width" width with
  | .error e => .error e
  | .ok c1 =>
    match convertPct c1 "height" height with
    | .error e => .error e
    | .ok c2 =>
      match convertPct c2 "x" width with
      | .error e => .error e
      | .ok c3 => convertPct c3 "y" height

/-- The width/height defaulting block of `Interface.__parse_grid_values`:
an absent attribute defaults to the cell size, an explicit `"auto"` becomes
`None` (deferring to the component type's default sizing behaviour), and
any other explicit value is kept. -/
def gridDefaultSize (c : Dict) (key : String) (cellSize : ℤ) : Dict :=
  match dget c key with
  | none => dset c key (.vInt cellSize)
  | some v => if v = .vStr "auto" then dset c key .vNone else c

/-- `Interface.__parse_grid_values`.  Only acts on grid-display interfaces
for components carrying a `grid_cell` key: computes the row and column with
Python's floor division and modulo, centers the component in its cell with
`int(...)` conversions, and defaults absent `width`/`height` to the cell
size (an explicit `"auto"` becomes `None`, deferring to the component
type's intrinsic default size).  A non-integer `grid_cell`, or the `None`
cell sizes/columns of a misdeclared interface, raises. -/
def parseGridValues (display : String) (comp : Dict) (gw gh : Option ℤ)
    (columns : Option ℤ) : Except String Dict :=
  if display ≠ "grid" then .ok comp
  else
    match dget comp "grid_cell" with
    | none => .ok comp
    | some (.vInt cell) =>
      match columns, gw, gh with
      | some cols, some gwv, some ghv =>
        let row := cell.fdiv cols
        let column := cell.fmod cols
        let c1 := dset comp "x" (.vInt (pyTrunc ((column * gwv : ℚ) + (gwv : ℚ) / 2)))
        let c2 := dset c1 "y" (.vInt (pyTrunc ((row * ghv : ℚ) + (ghv : ℚ) / 2)))
        .ok (gridDefaultSize (gridDefaultSize c2 "width" gwv) "height" ghv)
      | _, _, _ => .error "TypeError: unsupported operand type(s)"
    | some _ => .error "TypeError: unsupported operand type(s) for //"

/-- A handled component instance, as far as the `Interface` aggregate
observes it: its declared id value, its (lowercased) type string, and a
construction index giving each freshly constructed instance its own
identity. -/
structure Component where
  idx : ℕ
  cid : Value
  ctype : String
  deriving DecidableEq, Repr

/-- Python `str.lower()` (character-wise ASCII lowering). -/
def pyLower (s : String) : String :=
  (s.toList.map Char.toLower).asString

/-- Modelled from the spec: `_ConversionMapping.convert_component` (the
conversion module is not included in the sources) instantiates a component
from its declaration, keyed by `component["type"].lower()`; every declared
type is taken as registered, and the instance keeps the declared id and the
lowercased type.  A declaration whose `type` is not a string raises. -/
def convert_component (idx : ℕ) (comp : Dict) : Except String Component :=
  match dget comp "type", dget comp "id" with
  | some (.vStr t), some i => .ok ⟨idx, i, pyLower t⟩
  | some _, _ => .error "AttributeError: object has no attribute lower"
  | none, _ => .error "KeyError: type"

/-- The component-holding state of an `Interface`: the flat `_components`
list, the type-keyed dispatch groups `_component_type_groups` (in creation
order, as a Python dict), and the unified update/draw group `_group`.
Groups are embedded by their membership lists; the dispatch-group class
chosen by `Interface.__handle_new_type_group` (from the external
`GROUP_CONVERSION_TABLE`, by type or subtype) does not affect membership:
all three branches of that method store a new empty group under
`component.type`. -/
structure InterfaceState where
  components : List Component
  typeGroups : List (String × List Component)
  group : List Component
  deriving DecidableEq, Repr

/-- `Interface.__handle_new_type_group`: store a fresh empty group under
the component's type (the choice of group class is external and does not
affect membership). -/
def handleNewTypeGroup (tg : List (String × List Component)) (c : Component) :
    List (String × List Component) :=
  tg ++ [(c.ctype, [])]

/-- `self._component_type_groups[c.type].add(c)`: append the component to
the group stored under its type. -/
def addToTypeGroup (tg : List (String × List Component)) (c : Component) :
    List (String × List Component) :=
  tg.map (fun p => if p.1 == c.ctype then (p.1, p.2 ++ [c]) else p)

/-- The static configuration of an `Interface` used while parsing
components. -/
structure IfaceConfig where
  name : String
  display : String
  size : ℤ × ℤ
  rows : Option ℤ
  columns : Option ℤ
  styles : Option Styles

/-- The dictionary touch-ups `Interface._parse_components` performs after
the three conversion passes: default a missing `id` to the sentinel `"_"`,
then build the `pos` and `size` tuples from the (possibly absent) `x`, `y`,
`width` and `height` attributes. -/
def finalizeDict (c3 : Dict) : Dict :=
  let c4 := if dmem c3 "id" then c3 else dset c3 "id" (.vStr "_")
  let c5 := dset c4 "pos" (.vPair ((dget c4 "x").getD .vNone) ((dget c4 "y").getD .vNone))
  dset c5 "size" (.vPair ((dget c5 "width").getD .vNone) ((dget c5 "height").getD .vNone))

/-- The per-component body of the loop in `Interface._parse_components`:
style-class merge, percentage conversion, grid conversion, id defaulting
to the sentinel `"_"`, the `pos`/`size` tuples, construction, and insertion
into the `_components` list, the type-keyed group (created on first use)
and the unified group. -/
def parseOne (cfg : IfaceConfig) (gw gh : Option ℤ) (st : InterfaceState)
    (comp : Dict) : Except String InterfaceState :=
  match parseStyleClasses cfg.styles comp with
  | .error e => .error e
  | .ok c1 =>
    match parsePercentageValues cfg.size c1 gw gh with
    | .error e => .error e
    | .ok c2 =>
      match parseGridValues cfg.display c2 gw gh cfg.columns with
      | .error e => .error e
      | .ok c3 =>
        match convert_component st.components.length (finalizeDict c3) with
        | .error e => .error e
        | .ok c =>
          let tg := if (st.typeGroups.lookup c.ctype).isSome then st.typeGroups
                    else handleNewTypeGroup st.typeGroups c
          .ok { components := st.components ++ [c]
                typeGroups := addToTypeGroup tg c
                group := st.group ++ [c] }

/-- The loop of `Interface._parse_components` over the declared component
dictionaries. -/
def parseLoop (cfg : IfaceConfig) (gw gh : Option ℤ) (st : InterfaceState) :
    List Dict → Except String InterfaceState
  | [] => .ok st
  | d :: ds =>
    match parseOne cfg gw gh st d with
    | .error e => .error e
    | .ok st' => parseLoop cfg gw gh st' ds

/-- `Interface._parse_components`, starting from the empty construction
state: for a grid-display interface the grid cell size is
`size // columns` × `size // rows` (Python floor division; a missing or
zero `rows`/`columns` raises), otherwise there is no grid cell size. -/
def parseComponents (cfg : IfaceConfig) (dicts : List Dict) :
    Except String InterfaceState :=
  let st0 : InterfaceState := ⟨[], [], []⟩
  if cfg.display = "grid" then
    match cfg.columns, cfg.rows with
    | some cols, some rows =>
      if cols = 0 ∨ rows = 0 then .error "ZeroDivisionError: integer division by zero"
      else parseLoop cfg (some (cfg.size.1.fdiv cols)) (some (cfg.size.2.fdiv rows)) st0 dicts
    | _, _ => .error "TypeError: unsupported operand type(s) for //"
  else parseLoop cfg none none st0 dicts

/-- Python dict assignment `m[k] = v` for the id-keyed mapping: overwrite
in place or append. -/
def msetV (m : List (Value × Component)) (k : Value) (c : Component) :
    List (Value × Component) :=
  match m with
  | [] => [(k, c)]
  | (k', c') :: rest => if k' = k then (k', c) :: rest else (k', c') :: msetV rest k c

/-- The `Interface.component_mapping` property:
`{c.id: c for c in self._components if c.id != "_"}`. -/
def component_mapping (comps : List Component) : List (Value × Component) :=
  comps.foldl (fun m c => if c.cid ≠ .vStr "_" then msetV m c.cid c else m) []

/-- The grouping invariant of an `InterfaceState`: the type-group keys are
distinct (a Python dict), every stored group holds only components of its
key's type, and every parsed component is in the unified group and in the
group stored under its own type. -/
def wellGrouped (st : InterfaceState) : Prop :=
  (st.typeGroups.map Prod.fst).Nodup
  ∧ (∀ p ∈ st.typeGroups, ∀ c ∈ p.2, c.ctype = p.1)
  ∧ (∀ c ∈ st.components, c ∈ st.group)
  ∧ (∀ c ∈ st.components, ∃ g, st.typeGroups.lookup c.ctype = some g ∧ c ∈ g)

/-- An opaque loaded background image: its pixel size plus a tag carrying
its identity. -/
structure Image where
  size : ℤ × ℤ
  tag : ℕ
  deriving DecidableEq, Repr

/-- A parsed color value (`pygame.Color`), embedded opaquely. -/
abbrev Color := ℕ

/-- The external rendering library as the background parser observes it:
loading a path as an image (`none` embeds any failure inside the `try`
block), parsing a string as a color (`none` embeds `pygame.Color` raising),
and scaling an image to a size. -/
structure PgEnv where
  loadImage : String → Option Image
  parseColor : String → Option Color
  scale : Image → ℤ × ℤ → Image

/-- The background fields of an `Interface`: `_bg_color` and `_bg_image`. -/
structure BgState where
  bgColor : Color
  bgImage : Option Image
  deriving DecidableEq, Repr

/-- `Interface._parse_background`: try to load the value as an image file
(scaling it to the interface size on success); on any failure fall back to
interpreting the value as a color, which raises only if the color is also
invalid.  A `None` value fails the load (inside the `try`) and is then
skipped by the `if bg is not None` guard. -/
def parse_background (env : PgEnv) (size : ℤ × ℤ) (st : BgState)
    (bg : Option String) : Except String BgState :=
  match bg with
  | none => .ok st
  | some s =>
    match env.loadImage s with
    | some img =>
      let img := if size ≠ img.size then env.scale img size else img
      .ok { st with bgImage := some img }
    | none =>
      match env.parseColor s with
      | some c => .ok { st with bgColor := c }
      | none => .error "ValueError: invalid color argument"

/-- The second positional argument of `Interface.create_binding`, a Python
value observed through the two tests the source applies to it: a handled
component instance (`isinstance(c2, _HandledComponent)`; modelled from the
spec, handled components are not callable), a callable, or anything else. -/
inductive BindTarget : Type
  | component (c : Component)
  | callback (tag : ℕ)
  | other (tag : ℕ)
  deriving DecidableEq, Repr

/-- The two binding shapes `Interface.create_binding` can construct
(`_ComponentBinding` with a component or a callback target). -/
inductive Binding : Type
  | componentBinding (c1 : Component) (a1 : String) (c2 : Component) (a2 : String)
  | callbackBinding (c1 : Component) (a1 : String) (cb : ℕ)
  deriving DecidableEq, Repr

/-- `Interface.create_binding`: the component branch requires a handled
component and a non-`None` `a2`; the callback branch requires a callable;
any other combination leaves the local `b` unassigned and the final
`self._bindings.register(b)` raises `UnboundLocalError`, so nothing is
registered. -/
def create_binding (c1 : Component) (a1 : String) (c2 : BindTarget)
    (a2 : Option String) : Except String Binding :=
  match c2 with
  | .component c =>
    match a2 with
    | some a => .ok (.componentBinding c1 a1 c a)
    | none => .error "UnboundLocalError: local variable b referenced before assignment"
  | .callback f => .ok (.callbackBinding c1 a1 f)
  | .other _ => .error "UnboundLocalError: local variable b referenced before assignment"

/-- Modelled from the spec: equality between a stored component and the id
key passed to `Interface.__getitem__` (`_Component.__eq__` is not in the
included sources; the public API looks components up by id). -/
def componentEqKey (c : Component) (key : String) : Bool :=
  c.cid == .vStr key

/-- Python `list.index(key)` on the `_components` list: the index of the
first matching element, `ValueError` if none matches (it never returns
`-1`). -/
def list_index (l : List Component) (key : String) : Except String ℤ :=
  match l with
  | [] => .error "ValueError: not in list"
  | c :: rest =>
    if componentEqKey c key then .ok 0
    else
      match list_index rest key with
      | .ok i => .ok (i + 1)
      | .error e => .error e

/-- `Interface.__getitem__`: look the key up with `list.index` (whose
`ValueError` propagates), then return the component at the found index if
it is not `-1`, `None` otherwise. -/
def getitem (components : List Component) (key : String) :
    Except String (Option Component) :=
  match list_index components key with
  | .error e => .error e
  | .ok idx =>
    if idx ≠ -1 then
      match components.get? idx.toNat with
      | some c => .ok (some c)
      | none => .error "IndexError: list index out of range"
    else .ok none

/-- One externally observable step of `Interface.handle`: the operations
`Interface.update` and `Interface.draw` perform, in order. -/
inductive FrameStep : Type
  | updateGroup
  | updateSubgroup (i : ℕ)
  | handleBindings
  | updateOverlayInterfaces
  | handleHover
  | blitBackgroundImage
  | fillBackgroundColor
  | renderUnderlayer
  | drawGroup
  | drawSubgroup (i : ℕ)
  | renderOverlay
  deriving DecidableEq, Repr

/-- The steps of `Interface.update(dt)`: the unified group, then each
subgroup, then `self._bindings.handle()`, then the overlay interfaces. -/
def updateTrace (nSub : ℕ) : List FrameStep :=
  [.updateGroup] ++ (List.range nSub).map .updateSubgroup
    ++ [.handleBindings, .updateOverlayInterfaces]

/-- The steps of `Interface.draw(surface)`: the background (the image if
one is set, otherwise a color fill unless the display mode is
`"overlay"`), the underlayer, the unified component group, each subgroup,
and the overlay. -/
def drawTrace (hasBgImage : Bool) (display : String) (nSub : ℕ) : List FrameStep :=
  (if hasBgImage then [.blitBackgroundImage]
   else if display ≠ "overlay" then [.fillBackgroundColor] else [])
  ++ [.renderUnderlayer, .drawGroup] ++ (List.range nSub).map .drawSubgroup
  ++ [.renderOverlay]

/-- The steps of `Interface.handle(surface, dt)`: `update`, then
`handle_hover`, then `draw`. -/
def handleTrace (hasBgImage : Bool) (display : String) (nSub : ℕ) : List FrameStep :=
  updateTrace nSub ++ [.handleHover] ++ drawTrace hasBgImage display nSub

/-- `p`-steps all come strictly before `q`-steps in the step list `l`. -/
def stepsBefore (p q : FrameStep → Bool) (l : List FrameStep) : Prop :=
  ∀ i j, (hi : i < l.length) → (hj : j < l.length) →
    p (l.get ⟨i, hi⟩) = true → q (l.get ⟨j, hj⟩) = true → i < j

/-- Updates of this interface's component groups and subgroups. -/
def isComponentUpdate : FrameStep → Bool
  | .updateGroup => true
  | .updateSubgroup _ => true
  | _ => false

/-- Evaluation of the registered bindings. -/
def isBindingEval : FrameStep → Bool
  | .handleBindings => true
  | _ => false

/-- Hover resolution. -/
def isHoverStep : FrameStep → Bool
  | .handleHover => true
  | _ => false

/-- Any rendering step of `Interface.draw`. -/
def isDrawStep : FrameStep → Bool
  | .blitBackgroundImage => true
  | .fillBackgroundColor => true
  | .renderUnderlayer => true
  | .drawGroup => true
  | .drawSubgroup _ => true
  | .renderOverlay => true
  | _ => false

/-- The background rendering steps of `Interface.draw`. -/
def isBackgroundStep : FrameStep → Bool
  | .blitBackgroundImage => true
  | .fillBackgroundColor => true
  | _ => false

/-- The underlayer rendering step. -/
def isUnderlayerStep : FrameStep → Bool
  | .renderUnderlayer => true
  | _ => false

/-- The component-group rendering step. -/
def isGroupDrawStep : FrameStep → Bool
  | .drawGroup => true
  | _ => false

/-- The top overlay rendering step. -/
def isOverlayStep : FrameStep → Bool
  | .renderOverlay => true
  | _ => false

/-! ## Dictionary lemmas -/

theorem lookup_pair_cons {β : Type} (k k' : String) (v : β)
    (rest : List (String × β)) :
    List.lookup k ((k', v) :: rest) = if k = k' then some v else List.lookup k rest := by
  by_cases h : k = k'
  · simp [List.lookup, h]
  · simp [List.lookup, beq_eq_false_iff_ne.mpr h, h]

theorem dget_cons (k k' : String) (v : Value) (rest : Dict) :
    dget ((k', v) :: rest) k = if k = k' then some v else dget rest k :=
  lookup_pair_cons k k' v rest

theorem dget_dset_self (d : Dict) (k : String) (v : Value) :
    dget (dset d k v) k = some v := by
  induction d with
  | nil => simp [dget, dset]
  | cons kv rest ih =>
    obtain ⟨k', v'⟩ := kv
    by_cases h : k' = k
    · subst h
      simp [dset, dget_cons]
    · rw [dset, if_neg (by simpa using h), dget_cons, if_neg (Ne.symm h)]
      exact ih

theorem dget_dset_ne (d : Dict) (k k' : String) (v : Value) (h : k' ≠ k) :
    dget (dset d k v) k' = dget d k' := by
  induction d with
  | nil =>
    show dget [(k, v)] k' = dget [] k'
    rw [dget_cons, if_neg h]
  | cons kv rest ih =>
    obtain ⟨k₀, v₀⟩ := kv
    by_cases h0 : k₀ = k
    · subst h0
      rw [dset, if_pos (by simp), dget_cons, dget_cons, if_neg h, if_neg h]
    · rw [dset, if_neg (by simpa using h0), dget_cons, dget_cons]
      by_cases h1 : k' = k₀
      · simp [h1]
      · rw [if_neg h1, if_neg h1]
        exact ih

/-! ## Style-merge lemmas -/

theorem dget_applyClass (m : List (String × Value)) (comp : Dict) (k : String) :
    dget (applyClass m comp) k = (dget comp k).or (m.lookup k) := by
  induction m generalizing comp with
  | nil => simp [applyClass]
  | cons av rest ih =>
    obtain ⟨a, v⟩ := av
    have hstep : applyClass ((a, v) :: rest) comp =
        applyClass rest (if dmem comp a then comp else dset comp a v) := rfl
    rw [hstep, ih, lookup_pair_cons]
    by_cases hk : k = a
    · subst hk
      by_cases hc : dmem comp k
      · rw [if_pos hc, if_pos rfl]
        obtain ⟨w, hw⟩ := Option.isSome_iff_exists.mp (by simpa [dmem] using hc)
        simp [hw]
      · rw [if_neg hc, if_pos rfl, dget_dset_self]
        have hnone : dget comp k = none :=
          Option.not_isSome_iff_eq_none.mp (by simpa [dmem] using hc)
        simp [hnone]
    · rw [if_neg hk]
      by_cases hc : dmem comp a
      · rw [if_pos hc]
      · rw [if_neg hc, dget_dset_ne _ _ _ _ hk]

theorem dget_applyStylesList (sc : Styles) (l : List String) (comp : Dict) (k : String) :
    dget (applyStylesList sc l comp) k =
      (dget comp k).or (specEarliestClassValue sc l k) := by
  induction l generalizing comp with
  | nil => simp [applyStylesList, specEarliestClassValue]
  | cons s rest ih =>
    have hstep : applyStylesList sc (s :: rest) comp =
        applyStylesList sc rest
          (match sc.lookup s with
           | some m => applyClass m comp
           | none => comp) := rfl
    rw [hstep]
    cases hsc : sc.lookup s with
    | none =>
      simp only [hsc, ih]
      simp [specEarliestClassValue, hsc]
    | some m =>
      simp only [hsc, ih, dget_applyClass]
      cases hck : dget comp k with
      | some v => simp [specEarliestClassValue, hsc]
      | none =>
        cases hmk : m.lookup k with
        | some v => simp [specEarliestClassValue, hsc, hmk]
        | none => simp [specEarliestClassValue, hsc, hmk]

/-- Style merging never removes or changes an attribute that is present:
it can only add absent ones. -/
theorem dget_parseStyleClasses_present (styles : Option Styles) (comp d : Dict)
    (k : String) (hok : parseStyleClasses styles comp = .ok d)
    (hk : (dget comp k).isSome) : dget d k = dget comp k := by
  obtain ⟨w, hw⟩ := Option.isSome_iff_exists.mp hk
  unfold parseStyleClasses at hok
  cases hsty : dget comp "style" with
  | none => simp [hsty] at hok; subst hok; rfl
  | some sv =>
    cases styles with
    | none => simp [hsty] at hok; subst hok; rfl
    | some sc =>
      simp only [hsty] at hok
      cases sv with
      | vStr s =>
        cases hsc : sc.lookup s with
        | some m =>
          simp only [hsc] at hok
          cases hok
          rw [dget_applyClass, hw]
          rfl
        | none =>
          simp only [hsc] at hok
          by_cases hlen : s.length == 0
          · simp only [hlen, if_pos rfl] at hok
            cases hok; rfl
          · rw [if_neg (by simpa using hlen)] at hok
            cases hok
            rw [dget_applyStylesList, hw]
            rfl
      | vStrList l =>
        have hok' : (if (l.length == 0) = true then Except.ok comp
            else Except.ok (applyStylesList sc l comp)) = Except.ok (ε := String) d := hok
        by_cases hlen : (l.length == 0) = true
        · rw [if_pos hlen] at hok'
          cases hok'; rfl
        · rw [if_neg hlen] at hok'
          cases hok'
          rw [dget_applyStylesList, hw]
          rfl
      | vInt n => cases hok
      | vNone => cases hok
      | vPair a b => cases hok

/-! ## Percentage-conversion lemmas -/

theorem convertPct_preserves (comp comp' : Dict) (k k' : String) (b : Option ℤ)
    (hok : convertPct comp k b = .ok comp') (hne : k' ≠ k) :
    dget comp' k' = dget comp k' := by
  cases hv : dget comp k with
  | none => simp only [convertPct, hv, Except.ok.injEq] at hok; subst hok; rfl
  | some v =>
    cases v with
    | vStr w =>
      by_cases hw : w.toList.contains '%' = true
      · have hw' : '%' ∈ w.data := by simpa using hw
        cases hb : b with
        | none => simp [convertPct, hv, hw, hw', hb] at hok
        | some bv =>
          cases hp : percent_to_float w with
          | none => simp [convertPct, hv, hw, hw', hb, hp] at hok
          | some p =>
            simp only [convertPct, hv, hw, hb, hp, if_true, Except.ok.injEq] at hok
            subst hok
            exact dget_dset_ne _ _ _ _ hne
      · simp only [convertPct, hv, hw, if_false, Except.ok.injEq, Bool.false_eq_true] at hok
        subst hok; rfl
    | vInt n => simp only [convertPct, hv, Except.ok.injEq] at hok; subst hok; rfl
    | vStrList l => simp only [convertPct, hv, Except.ok.injEq] at hok; subst hok; rfl
    | vNone => simp only [convertPct, hv, Except.ok.injEq] at hok; subst hok; rfl
    | vPair a c => simp only [convertPct, hv, Except.ok.injEq] at hok; subst hok; rfl

theorem convertPct_pct (comp comp' : Dict) (k : String) (b : Option ℤ) (w : String)
    (hv : dget comp k = some (.vStr w)) (hw : w.toList.contains '%' = true)
    (hok : convertPct comp k b = .ok comp') :
    ∃ bv p, b = some bv ∧ percent_to_float w = some p ∧
      dget comp' k = some (.vInt (pyTrunc (fl64 (fl64 (bv : ℚ) * p)))) := by
  have hw' : '%' ∈ w.data := by simpa using hw
  cases hb : b with
  | none => simp [convertPct, hv, hw, hw', hb] at hok
  | some bv =>
    cases hp : percent_to_float w with
    | none => simp [convertPct, hv, hw, hw', hb, hp] at hok
    | some p =>
      simp only [convertPct, hv, hw, hb, hp, if_true, Except.ok.injEq] at hok
      subst hok
      exact ⟨bv, p, rfl, rfl, dget_dset_self _ _ _⟩

/-! ## Grid-resolution lemmas -/

theorem dget_gridDefaultSize_ne (c : Dict) (key k' : String) (s : ℤ) (h : k' ≠ key) :
    dget (gridDefaultSize c key s) k' = dget c k' := by
  cases hv : dget c key with
  | none =>
    simp only [gridDefaultSize, hv]
    exact dget_dset_ne _ _ _ _ h
  | some v =>
    by_cases ha : v = .vStr "auto"
    · simp only [gridDefaultSize, hv, ha, if_true]
      exact dget_dset_ne _ _ _ _ h
    · simp only [gridDefaultSize, hv, ha, if_false]

theorem gridDefaultSize_absent (c : Dict) (key : String) (s : ℤ)
    (hv : dget c key = none) :
    dget (gridDefaultSize c key s) key = some (.vInt s) := by
  simp only [gridDefaultSize, hv]
  exact dget_dset_self _ _ _

theorem gridDefaultSize_auto (c : Dict) (key : String) (s : ℤ)
    (hv : dget c key = some (.vStr "auto")) :
    dget (gridDefaultSize c key s) key = some .vNone := by
  simp only [gridDefaultSize, hv, if_pos rfl]
  exact dget_dset_self _ _ _

/-! ## Claim theorems -/

/-- **C2 counterexample**: the claim says a percentage value resolves to
`round(base * percentage/100)`; the source computes
`int(base * percent_to_float(w))` in binary64 doubles and truncates, which
differs twice over.  On a 6px-wide base a width of `"25%"` resolves to
`int(1.5) = 1` while the claimed formula gives `round(1.5) = 2`; and on a
100px-wide base a width of `"29%"` resolves to
`int(100 * 0.29) = int(28.999999999999996) = 28` while the claimed formula
gives `round(29) = 29`. -/
theorem percentage_round_counterexample :
    (parsePercentageValues (6, 6) [("width", Value.vStr "25%")] none none =
      .ok [("width", Value.vInt 1)]
    ∧ round ((6 : ℚ) * 25 / 100) = 2 ∧ (1 : ℤ) ≠ 2)
    ∧ (parsePercentageValues (100, 100) [("width", Value.vStr "29%")] none none =
      .ok [("width", Value.vInt 28)]
    ∧ round ((100 : ℚ) * 29 / 100) = 29 ∧ (28 : ℤ) ≠ 29) :=
  ⟨⟨rfl, by decide, by decide⟩, ⟨rfl, by decide, by decide⟩⟩

/-- **C2 (amended)**: a percentage string among `width`, `height`, `x`, `y`
is replaced by the integer pixel value `int(base_dimension * percent_to_float(value))`
computed in binary64 double arithmetic — `int(...)` truncates toward zero
(not `round`), and the product `fl64 (fl64 base * percent)` carries the
doubles' rounding (so e.g. `"29%"` of a 100px base gives 28, not 29) — where
the base dimension is the grid cell size when the component has a
`grid_cell` key and the interface size otherwise (`width`/`x` use the
horizontal base, `height`/`y` the vertical one). -/
theorem percentage_resolution (size : ℤ × ℤ) (comp d : Dict) (gw gh : Option ℤ)
    (hok : parsePercentageValues size comp gw gh = .ok d) :
    (∀ w, dget comp "width" = some (.vStr w) → w.toList.contains '%' = true →
      ∃ b p, (if dmem comp "grid_cell" then gw else some size.1) = some b ∧
        percent_to_float w = some p ∧
        dget d "width" = some (.vInt (pyTrunc (fl64 (fl64 (b : ℚ) * p)))))
    ∧ (∀ w, dget comp "height" = some (.vStr w) → w.toList.contains '%' = true →
      ∃ b p, (if dmem comp "grid_cell" then gh else some size.2) = some b ∧
        percent_to_float w = some p ∧
        dget d "height" = some (.vInt (pyTrunc (fl64 (fl64 (b : ℚ) * p)))))
    ∧ (∀ w, dget comp "x" = some (.vStr w) → w.toList.contains '%' = true →
      ∃ b p, (if dmem comp "grid_cell" then gw else some size.1) = some b ∧
        percent_to_float w = some p ∧
        dget d "x" = some (.vInt (pyTrunc (fl64 (fl64 (b : ℚ) * p)))))
    ∧ (∀ w, dget comp "y" = some (.vStr w) → w.toList.contains '%' = true →
      ∃ b p, (if dmem comp "grid_cell" then gh else some size.2) = some b ∧
        percent_to_float w = some p ∧
        dget d "y" = some (.vInt (pyTrunc (fl64 (fl64 (b : ℚ) * p))))) := by
  unfold parsePercentageValues at hok
  cases h1 : convertPct comp "width" (if dmem comp "grid_cell" then gw else some size.1) with
  | error e => simp [h1] at hok
  | ok c1 =>
    simp only [h1] at hok
    cases h2 : convertPct c1 "height" (if dmem comp "grid_cell" then gh else some size.2) with
    | error e => simp [h2] at hok
    | ok c2 =>
      simp only [h2] at hok
      cases h3 : convertPct c2 "x" (if dmem comp "grid_cell" then gw else some size.1) with
      | error e => simp [h3] at hok
      | ok c3 =>
        simp only [h3] at hok
        have p1 : ∀ k', k' ≠ "width" → dget c1 k' = dget comp k' :=
          fun k' h => convertPct_preserves _ _ _ _ _ h1 h
        have p2 : ∀ k', k' ≠ "height" → dget c2 k' = dget c1 k' :=
          fun k' h => convertPct_preserves _ _ _ _ _ h2 h
        have p3 : ∀ k', k' ≠ "x" → dget c3 k' = dget c2 k' :=
          fun k' h => convertPct_preserves _ _ _ _ _ h3 h
        have p4 : ∀ k', k' ≠ "y" → dget d k' = dget c3 k' :=
          fun k' h => convertPct_preserves _ _ _ _ _ hok h
        refine ⟨?_, ?_, ?_, ?_⟩
        · intro w hv hw
          obtain ⟨b, p, hb, hp, hres⟩ := convertPct_pct comp c1 "width" _ w hv hw h1
          refine ⟨b, p, hb, hp, ?_⟩
          rw [p4 "width" (by decide), p3 "width" (by decide), p2 "width" (by decide)]
          exact hres
        · intro w hv hw
          have hv1 : dget c1 "height" = some (.vStr w) := by
            rw [p1 "height" (by decide)]; exact hv
          obtain ⟨b, p, hb, hp, hres⟩ := convertPct_pct c1 c2 "height" _ w hv1 hw h2
          refine ⟨b, p, hb, hp, ?_⟩
          rw [p4 "height" (by decide), p3 "height" (by decide)]
          exact hres
        · intro w hv hw
          have hv2 : dget c2 "x" = some (.vStr w) := by
            rw [p2 "x" (by decide), p1 "x" (by decide)]; exact hv
          obtain ⟨b, p, hb, hp, hres⟩ := convertPct_pct c2 c3 "x" _ w hv2 hw h3
          refine ⟨b, p, hb, hp, ?_⟩
          rw [p4 "x" (by decide)]
          exact hres
        · intro w hv hw
          have hv3 : dget c3 "y" = some (.vStr w) := by
            rw [p3 "y" (by decide), p2 "y" (by decide), p1 "y" (by decide)]; exact hv
          exact convertPct_pct c3 d "y" _ w hv3 hw hok

/-- Witness for C2: a width of `"50%"` on a 200px-wide non-grid base
resolves to exactly `100`. -/
theorem percentage_resolution_witness :
    ∃ b p, (if dmem [("width", Value.vStr "50%")] "grid_cell" then (none : Option ℤ)
        else some 200) = some b ∧
      percent_to_float "50%" = some p ∧
      dget [("width", Value.vInt 100)] "width" =
        some (Value.vInt (pyTrunc (fl64 (fl64 (b : ℚ) * p)))) :=
  (percentage_resolution (200, 100) [("width", .vStr "50%")] [("width", .vInt 100)]
    none none rfl).1 "50%" rfl rfl

/-- **C1**: in the style-merge step of component parsing, an attribute that
is already set on the component keeps its value regardless of any style
class; for a single known style class the absent attributes come from that
class; and for a list of style classes an absent attribute resolves to the
earliest listed known class that declares it. -/
theorem style_class_merge (sc : Styles) (comp : Dict) (attr : String) :
    (∀ d, parseStyleClasses (some sc) comp = .ok d →
      (dget comp attr).isSome → dget d attr = dget comp attr)
    ∧ (∀ s m d, dget comp "style" = some (.vStr s) → sc.lookup s = some m →
      parseStyleClasses (some sc) comp = .ok d → dget comp attr = none →
      dget d attr = m.lookup attr)
    ∧ (∀ l d, dget comp "style" = some (.vStrList l) →
      parseStyleClasses (some sc) comp = .ok d → dget comp attr = none →
      dget d attr = specEarliestClassValue sc l attr) := by
  refine ⟨fun d hok hs => dget_parseStyleClasses_present _ _ _ _ hok hs, ?_, ?_⟩
  · intro s m d hsty hsc hok habs
    unfold parseStyleClasses at hok
    rw [hsty] at hok
    simp only [hsc] at hok
    cases hok
    rw [dget_applyClass, habs]
    simp
  · intro l d hsty hok habs
    unfold parseStyleClasses at hok
    rw [hsty] at hok
    have hok' : (if (l.length == 0) = true then Except.ok comp
        else Except.ok (applyStylesList sc l comp)) = Except.ok (ε := String) d := hok
    by_cases hlen : (l.length == 0) = true
    · rw [if_pos hlen] at hok'
      cases hok'
      have : l = [] := by simpa using hlen
      subst this
      simp [specEarliestClassValue, habs]
    · rw [if_neg hlen] at hok'
      cases hok'
      rw [dget_applyStylesList, habs]
      simp

/-- Witness for C1: with style classes `A` and `B` both declaring `color`
(`A` red, `B` blue) and a component listing `[A, B]`, the merged component's
`color` is the earliest class's value, red. -/
theorem style_class_merge_witness :
    dget [("style", Value.vStrList ["A", "B"]), ("color", Value.vStr "red")] "color" =
      specEarliestClassValue
        [("A", [("color", Value.vStr "red")]), ("B", [("color", Value.vStr "blue")])]
        ["A", "B"] "color"
    ∧ specEarliestClassValue
        [("A", [("color", Value.vStr "red")]), ("B", [("color", Value.vStr "blue")])]
        ["A", "B"] "color" = some (Value.vStr "red") :=
  ⟨(style_class_merge
      [("A", [("color", .vStr "red")]), ("B", [("color", .vStr "blue")])]
      [("style", .vStrList ["A", "B"])] "color").2.2 ["A", "B"]
      [("style", .vStrList ["A", "B"]), ("color", .vStr "red")] rfl rfl rfl,
    rfl⟩

/-- **C3 counterexample**: the claim says the component is centered at
exactly `x = column*cell_w + cell_w/2`; with one column of width 5 and
`grid_cell = 0` the source sets `x = int(0*5 + 5/2) = 2`, while the claimed
expression equals `5/2`, and `(2 : ℚ) ≠ 5/2`. -/
theorem grid_center_counterexample :
    parseGridValues "grid" [("grid_cell", Value.vInt 0)] (some 5) (some 4) (some 1) =
      .ok [("grid_cell", Value.vInt 0), ("x", Value.vInt 2), ("y", Value.vInt 2),
        ("width", Value.vInt 5), ("height", Value.vInt 4)]
    ∧ ((2 : ℚ) ≠ (0 : ℚ) * 5 + 5 / 2) :=
  ⟨rfl, by decide⟩

/-- **C3 (amended)**: grid resolution computes `row = grid_cell // columns`
and `column = grid_cell % columns` and centers the component in its cell up
to `int(...)` truncation: `x = int(column*cell_w + cell_w/2)` and
`y = int(row*cell_h + cell_h/2)`; an unset `width` (resp. `height`)
defaults to the full cell width (resp. height) and an explicit `"auto"`
becomes `None`, deferring to the component type's intrinsic default size. -/
theorem grid_resolution (comp d : Dict) (cell cols gwv ghv : ℤ)
    (hcell : dget comp "grid_cell" = some (.vInt cell))
    (hok : parseGridValues "grid" comp (some gwv) (some ghv) (some cols) = .ok d) :
    dget d "x" = some (.vInt (pyTrunc ((cell.fmod cols * gwv : ℚ) + (gwv : ℚ) / 2)))
    ∧ dget d "y" = some (.vInt (pyTrunc ((cell.fdiv cols * ghv : ℚ) + (ghv : ℚ) / 2)))
    ∧ (dget comp "width" = none → dget d "width" = some (.vInt gwv))
    ∧ (dget comp "width" = some (.vStr "auto") → dget d "width" = some Value.vNone)
    ∧ (dget comp "height" = none → dget d "height" = some (.vInt ghv))
    ∧ (dget comp "height" = some (.vStr "auto") → dget d "height" = some Value.vNone) := by
  unfold parseGridValues at hok
  rw [if_neg (by decide)] at hok
  simp only [hcell, Except.ok.injEq] at hok
  subst hok
  have hx2 : dget (dset (dset comp "x"
        (Value.vInt (pyTrunc ((cell.fmod cols * gwv : ℚ) + (gwv : ℚ) / 2)))) "y"
        (Value.vInt (pyTrunc ((cell.fdiv cols * ghv : ℚ) + (ghv : ℚ) / 2)))) "x" =
      some (Value.vInt (pyTrunc ((cell.fmod cols * gwv : ℚ) + (gwv : ℚ) / 2))) := by
    rw [dget_dset_ne _ _ _ _ (by decide)]
    exact dget_dset_self _ _ _
  have hy2 : dget (dset (dset comp "x"
        (Value.vInt (pyTrunc ((cell.fmod cols * gwv : ℚ) + (gwv : ℚ) / 2)))) "y"
        (Value.vInt (pyTrunc ((cell.fdiv cols * ghv : ℚ) + (ghv : ℚ) / 2)))) "y" =
      some (Value.vInt (pyTrunc ((cell.fdiv cols * ghv : ℚ) + (ghv : ℚ) / 2))) :=
    dget_dset_self _ _ _
  have hw2 : dget (dset (dset comp "x"
        (Value.vInt (pyTrunc ((cell.fmod cols * gwv : ℚ) + (gwv : ℚ) / 2)))) "y"
        (Value.vInt (pyTrunc ((cell.fdiv cols * ghv : ℚ) + (ghv : ℚ) / 2)))) "width" =
      dget comp "width" := by
    rw [dget_dset_ne _ _ _ _ (by decide), dget_dset_ne _ _ _ _ (by decide)]
  have hh2 : dget (dset (dset comp "x"
        (Value.vInt (pyTrunc ((cell.fmod cols * gwv : ℚ) + (gwv : ℚ) / 2)))) "y"
        (Value.vInt (pyTrunc ((cell.fdiv cols * ghv : ℚ) + (ghv : ℚ) / 2)))) "height" =
      dget comp "height" := by
    rw [dget_dset_ne _ _ _ _ (by decide), dget_dset_ne _ _ _ _ (by decide)]
  refine ⟨?_, ?_, ?_, ?_, ?_, ?_⟩
  · rw [dget_gridDefaultSize_ne _ _ _ _ (by decide),
      dget_gridDefaultSize_ne _ _ _ _ (by decide)]
    exact hx2
  · rw [dget_gridDefaultSize_ne _ _ _ _ (by decide),
      dget_gridDefaultSize_ne _ _ _ _ (by decide)]
    exact hy2
  · intro habs
    rw [dget_gridDefaultSize_ne _ _ _ _ (by decide)]
    exact gridDefaultSize_absent _ _ _ (hw2.trans habs)
  · intro hauto
    rw [dget_gridDefaultSize_ne _ _ _ _ (by decide)]
    exact gridDefaultSize_auto _ _ _ (hw2.trans hauto)
  · intro habs
    refine gridDefaultSize_absent _ _ _ ?_
    rw [dget_gridDefaultSize_ne _ _ _ _ (by decide)]
    exact hh2.trans habs
  · intro hauto
    refine gridDefaultSize_auto _ _ _ ?_
    rw [dget_gridDefaultSize_ne _ _ _ _ (by decide)]
    exact hh2.trans hauto

/-- Witness for C3: with `columns = 3` and `grid_cell = 4` (cells 6×4) the
component resolves to row 1, column 1, is centered (up to truncation) at
that cell, and absent width/height default to the cell size. -/
theorem grid_resolution_witness :
    dget [("grid_cell", Value.vInt 4), ("x", Value.vInt 9), ("y", Value.vInt 6),
        ("width", Value.vInt 6), ("height", Value.vInt 4)] "x" =
      some (.vInt (pyTrunc (((4 : ℤ).fmod 3 * 6 : ℚ) + (6 : ℚ) / 2)))
    ∧ (4 : ℤ).fdiv 3 = 1 ∧ (4 : ℤ).fmod 3 = 1 := by
  refine ⟨(grid_resolution [("grid_cell", Value.vInt 4)] _ 4 3 6 4 rfl rfl).1, by decide,
    by decide⟩

/-! ## Frame-trace lemmas -/

theorem stepsBefore_append (p q : FrameStep → Bool) (l1 l2 : List FrameStep)
    (h1 : ∀ x ∈ l1, q x = false) (h2 : ∀ x ∈ l2, p x = false) :
    stepsBefore p q (l1 ++ l2) := by
  intro i j hi hj hp hq
  have hjge : l1.length ≤ j := by
    by_contra hlt
    push_neg at hlt
    have hq' : q ((l1 ++ l2).get ⟨j, hj⟩) = false := by
      rw [List.get_eq_getElem, List.getElem_append_left hlt]
      exact h1 _ (List.getElem_mem _)
    rw [hq'] at hq
    cases hq
  have hilt : i < l1.length := by
    by_contra hge
    push_neg at hge
    have hp' : p ((l1 ++ l2).get ⟨i, hi⟩) = false := by
      rw [List.get_eq_getElem, List.getElem_append_right hge]
      exact h2 _ (List.getElem_mem _)
    rw [hp'] at hp
    cases hp
  omega

theorem forall_updateTrace (n : ℕ) (P : FrameStep → Bool)
    (h1 : P .updateGroup = false) (h2 : ∀ i, P (.updateSubgroup i) = false)
    (h3 : P .handleBindings = false) (h4 : P .updateOverlayInterfaces = false) :
    ∀ x ∈ updateTrace n, P x = false := by
  intro x hx
  unfold updateTrace at hx
  rcases List.mem_append.mp hx with hx | hx
  · rcases List.mem_append.mp hx with hx | hx
    · rcases List.mem_cons.mp hx with rfl | hx
      · exact h1
      · exact absurd hx (List.not_mem_nil x)
    · obtain ⟨i, _, rfl⟩ := List.mem_map.mp hx
      exact h2 i
  · rcases List.mem_cons.mp hx with rfl | hx
    · exact h3
    · rcases List.mem_cons.mp hx with rfl | hx
      · exact h4
      · exact absurd hx (List.not_mem_nil x)

theorem forall_drawTrace (hb : Bool) (display : String) (n : ℕ) (P : FrameStep → Bool)
    (h1 : P .blitBackgroundImage = false) (h2 : P .fillBackgroundColor = false)
    (h3 : P .renderUnderlayer = false) (h4 : P .drawGroup = false)
    (h5 : ∀ i, P (.drawSubgroup i) = false) (h6 : P .renderOverlay = false) :
    ∀ x ∈ drawTrace hb display n, P x = false := by
  intro x hx
  unfold drawTrace at hx
  rcases List.mem_append.mp hx with hx | hx
  · rcases List.mem_append.mp hx with hx | hx
    · rcases List.mem_append.mp hx with hx | hx
      · split_ifs at hx
        · rcases List.mem_cons.mp hx with rfl | hx
          · exact h1
          · exact absurd hx (List.not_mem_nil x)
        · rcases List.mem_cons.mp hx with rfl | hx
          · exact h2
          · exact absurd hx (List.not_mem_nil x)
        · exact absurd hx (List.not_mem_nil x)
      · rcases List.mem_cons.mp hx with rfl | hx
        · exact h3
        · rcases List.mem_cons.mp hx with rfl | hx
          · exact h4
          · exact absurd hx (List.not_mem_nil x)
    · obtain ⟨i, _, rfl⟩ := List.mem_map.mp hx
      exact h5 i
  · rcases List.mem_cons.mp hx with rfl | hx
    · exact h6
    · exact absurd hx (List.not_mem_nil x)

/-! ## More claim theorems -/

/-- **C4**: in `Interface.handle(surface, dt)` the per-frame operations are
ordered: every update of the interface's component groups and subgroups
precedes the binding evaluation, the binding evaluation precedes hover
resolution, hover resolution precedes every rendering step, and no
rendering step of the frame precedes any of that frame's component
updates. -/
theorem handle_frame_order (hb : Bool) (display : String) (n : ℕ) :
    stepsBefore isComponentUpdate isBindingEval (handleTrace hb display n)
    ∧ stepsBefore isBindingEval isHoverStep (handleTrace hb display n)
    ∧ stepsBefore isHoverStep isDrawStep (handleTrace hb display n)
    ∧ stepsBefore isComponentUpdate isDrawStep (handleTrace hb display n) := by
  have hdrawCU : ∀ x ∈ drawTrace hb display n, isComponentUpdate x = false :=
    forall_drawTrace hb display n _ rfl rfl rfl rfl (fun _ => rfl) rfl
  have hdrawBE : ∀ x ∈ drawTrace hb display n, isBindingEval x = false :=
    forall_drawTrace hb display n _ rfl rfl rfl rfl (fun _ => rfl) rfl
  have hdrawHV : ∀ x ∈ drawTrace hb display n, isHoverStep x = false :=
    forall_drawTrace hb display n _ rfl rfl rfl rfl (fun _ => rfl) rfl
  have hupdDS : ∀ x ∈ updateTrace n, isDrawStep x = false :=
    forall_updateTrace n _ rfl (fun _ => rfl) rfl rfl
  have hupdHV : ∀ x ∈ updateTrace n, isHoverStep x = false :=
    forall_updateTrace n _ rfl (fun _ => rfl) rfl rfl
  have hshape1 : handleTrace hb display n =
      ([FrameStep.updateGroup] ++ (List.range n).map FrameStep.updateSubgroup)
        ++ ([FrameStep.handleBindings, FrameStep.updateOverlayInterfaces,
            FrameStep.handleHover] ++ drawTrace hb display n) := by
    simp [handleTrace, updateTrace, List.append_assoc]
  have hshape2 : handleTrace hb display n =
      updateTrace n ++ ([FrameStep.handleHover] ++ drawTrace hb display n) := by
    simp [handleTrace, List.append_assoc]
  have hshape3 : handleTrace hb display n =
      (updateTrace n ++ [FrameStep.handleHover]) ++ drawTrace hb display n := rfl
  refine ⟨?_, ?_, ?_, ?_⟩
  · rw [hshape1]
    refine stepsBefore_append _ _ _ _ ?_ ?_
    · intro x hx
      rcases List.mem_append.mp hx with hx | hx
      · rcases List.mem_cons.mp hx with rfl | hx
        · rfl
        · exact absurd hx (List.not_mem_nil x)
      · obtain ⟨i, _, rfl⟩ := List.mem_map.mp hx
        rfl
    · intro x hx
      rcases List.mem_cons.mp hx with rfl | hx
      · rfl
      · rcases List.mem_cons.mp hx with rfl | hx
        · rfl
        · rcases List.mem_cons.mp hx with rfl | hx
          · rfl
          · exact hdrawCU x hx
  · rw [hshape2]
    refine stepsBefore_append _ _ _ _ ?_ ?_
    · exact hupdHV
    · intro x hx
      rcases List.mem_cons.mp hx with rfl | hx
      · rfl
      · exact hdrawBE x hx
  · rw [hshape3]
    refine stepsBefore_append _ _ _ _ ?_ ?_
    · intro x hx
      rcases List.mem_append.mp hx with hx | hx
      · exact hupdDS x hx
      · rcases List.mem_cons.mp hx with rfl | hx
        · rfl
        · exact absurd hx (List.not_mem_nil x)
    · exact hdrawHV
  · rw [hshape3]
    refine stepsBefore_append _ _ _ _ ?_ ?_
    · intro x hx
      rcases List.mem_append.mp hx with hx | hx
      · exact hupdDS x hx
      · rcases List.mem_cons.mp hx with rfl | hx
        · rfl
        · exact absurd hx (List.not_mem_nil x)
    · exact hdrawCU

/-- Witness for C4: the ordering at a concrete frame (a background image
set, default display, two subgroups). -/
theorem handle_frame_order_witness :
    stepsBefore isComponentUpdate isBindingEval (handleTrace true "default" 2) :=
  (handle_frame_order true "default" 2).1

/-- **C5**: `Interface.draw(surface)` composites in order: any background
step (image blit or color fill) precedes the underlayer, the underlayer
precedes the component-group rendering, the component-group rendering
precedes the top overlay; and whenever a background is rendered at all (an
image is set, or the display mode is not `"overlay"`), it is the very first
step of the draw. -/
theorem draw_composite_order (hb : Bool) (display : String) (n : ℕ) :
    stepsBefore isBackgroundStep isUnderlayerStep (drawTrace hb display n)
    ∧ stepsBefore isUnderlayerStep isGroupDrawStep (drawTrace hb display n)
    ∧ stepsBefore isGroupDrawStep isOverlayStep (drawTrace hb display n)
    ∧ (hb = true ∨ display ≠ "overlay" →
        (drawTrace hb display n).head? =
          some (if hb then FrameStep.blitBackgroundImage
                else FrameStep.fillBackgroundColor)) := by
  have hbgpart : ∀ (P : FrameStep → Bool), P .blitBackgroundImage = false →
      P .fillBackgroundColor = false →
      ∀ x ∈ (if hb then [FrameStep.blitBackgroundImage]
        else if display ≠ "overlay" then [FrameStep.fillBackgroundColor] else []),
      P x = false := by
    intro P h1 h2 x hx
    split_ifs at hx
    · rcases List.mem_cons.mp hx with rfl | hx
      · exact h1
      · exact absurd hx (List.not_mem_nil x)
    · rcases List.mem_cons.mp hx with rfl | hx
      · exact h2
      · exact absurd hx (List.not_mem_nil x)
    · exact absurd hx (List.not_mem_nil x)
  refine ⟨?_, ?_, ?_, ?_⟩
  · have hshape : drawTrace hb display n =
        (if hb then [FrameStep.blitBackgroundImage]
          else if display ≠ "overlay" then [FrameStep.fillBackgroundColor] else [])
        ++ ([FrameStep.renderUnderlayer, FrameStep.drawGroup]
          ++ (List.range n).map FrameStep.drawSubgroup ++ [FrameStep.renderOverlay]) := by
      simp [drawTrace, List.append_assoc]
    rw [hshape]
    refine stepsBefore_append _ _ _ _ (hbgpart _ rfl rfl) ?_
    intro x hx
    rcases List.mem_append.mp hx with hx | hx
    · rcases List.mem_append.mp hx with hx | hx
      · rcases List.mem_cons.mp hx with rfl | hx
        · rfl
        · rcases List.mem_cons.mp hx with rfl | hx
          · rfl
          · exact absurd hx (List.not_mem_nil x)
      · obtain ⟨i, _, rfl⟩ := List.mem_map.mp hx
        rfl
    · rcases List.mem_cons.mp hx with rfl | hx
      · rfl
      · exact absurd hx (List.not_mem_nil x)
  · have hshape : drawTrace hb display n =
        ((if hb then [FrameStep.blitBackgroundImage]
          else if display ≠ "overlay" then [FrameStep.fillBackgroundColor] else [])
          ++ [FrameStep.renderUnderlayer])
        ++ ([FrameStep.drawGroup] ++ (List.range n).map FrameStep.drawSubgroup
          ++ [FrameStep.renderOverlay]) := by
      simp [drawTrace, List.append_assoc]
    rw [hshape]
    refine stepsBefore_append _ _ _ _ ?_ ?_
    · intro x hx
      rcases List.mem_append.mp hx with hx | hx
      · exact hbgpart _ rfl rfl x hx
      · rcases List.mem_cons.mp hx with rfl | hx
        · rfl
        · exact absurd hx (List.not_mem_nil x)
    · intro x hx
      rcases List.mem_append.mp hx with hx | hx
      · rcases List.mem_append.mp hx with hx | hx
        · rcases List.mem_cons.mp hx with rfl | hx
          · rfl
          · exact absurd hx (List.not_mem_nil x)
        · obtain ⟨i, _, rfl⟩ := List.mem_map.mp hx
          rfl
      · rcases List.mem_cons.mp hx with rfl | hx
        · rfl
        · exact absurd hx (List.not_mem_nil x)
  · have hshape : drawTrace hb display n =
        ((if hb then [FrameStep.blitBackgroundImage]
          else if display ≠ "overlay" then [FrameStep.fillBackgroundColor] else [])
          ++ [FrameStep.renderUnderlayer, FrameStep.drawGroup]
          ++ (List.range n).map FrameStep.drawSubgroup)
        ++ [FrameStep.renderOverlay] := by
      simp [drawTrace, List.append_assoc]
    rw [hshape]
    refine stepsBefore_append _ _ _ _ ?_ ?_
    · intro x hx
      rcases List.mem_append.mp hx with hx | hx
      · rcases List.mem_append.mp hx with hx | hx
        · exact hbgpart _ rfl rfl x hx
        · rcases List.mem_cons.mp hx with rfl | hx
          · rfl
          · rcases List.mem_cons.mp hx with rfl | hx
            · rfl
            · exact absurd hx (List.not_mem_nil x)
      · obtain ⟨i, _, rfl⟩ := List.mem_map.mp hx
        rfl
    · intro x hx
      rcases List.mem_cons.mp hx with rfl | hx
      · rfl
      · exact absurd hx (List.not_mem_nil x)
  · intro hcond
    cases hb with
    | true => rfl
    | false =>
      rcases hcond with hfalse | hne
      · cases hfalse
      · simp [drawTrace, hne]

/-- Witness for C5: the compositing order at a concrete draw (no background
image, default display, one subgroup); the color fill comes first. -/
theorem draw_composite_order_witness :
    stepsBefore isBackgroundStep isUnderlayerStep (drawTrace false "default" 1)
    ∧ (drawTrace false "default" 1).head? = some FrameStep.fillBackgroundColor :=
  ⟨(draw_composite_order false "default" 1).1,
    (draw_composite_order false "default" 1).2.2.2 (Or.inr (by decide))⟩

/-! ## Grouping lemmas -/

theorem lookup_append_or {β : Type} (l l' : List (String × β)) (k : String) :
    (l ++ l').lookup k = (l.lookup k).or (l'.lookup k) := by
  induction l with
  | nil => simp
  | cons p rest ih =>
    obtain ⟨a, b⟩ := p
    rw [List.cons_append, lookup_pair_cons, lookup_pair_cons]
    by_cases h : k = a
    · simp [h]
    · simp [h, ih]

theorem lookup_none_not_mem_keys {β : Type} (l : List (String × β)) (k : String)
    (h : l.lookup k = none) : k ∉ l.map Prod.fst := by
  induction l with
  | nil => simp
  | cons p rest ih =>
    obtain ⟨a, b⟩ := p
    rw [lookup_pair_cons] at h
    by_cases hk : k = a
    · rw [if_pos hk] at h
      cases h
    · rw [if_neg hk] at h
      simp only [List.map_cons, List.mem_cons]
      rintro (rfl | hmem)
      · exact hk rfl
      · exact ih h hmem

theorem addToTypeGroup_keys (tg : List (String × List Component)) (c : Component) :
    (addToTypeGroup tg c).map Prod.fst = tg.map Prod.fst := by
  induction tg with
  | nil => rfl
  | cons p rest ih =>
    have hstep : addToTypeGroup (p :: rest) c =
        (if p.1 == c.ctype then (p.1, p.2 ++ [c]) else p) :: addToTypeGroup rest c := rfl
    rw [hstep, List.map_cons, List.map_cons, ih]
    by_cases h : (p.1 == c.ctype) = true
    · rw [if_pos h]
    · rw [if_neg h]

theorem addToTypeGroup_lookup (tg : List (String × List Component)) (c : Component)
    (k : String) :
    (addToTypeGroup tg c).lookup k =
      (tg.lookup k).map (fun g => if k = c.ctype then g ++ [c] else g) := by
  induction tg with
  | nil => rfl
  | cons p rest ih =>
    obtain ⟨a, g⟩ := p
    have hstep : addToTypeGroup ((a, g) :: rest) c =
        (if a == c.ctype then (a, g ++ [c]) else (a, g)) :: addToTypeGroup rest c := rfl
    rw [hstep]
    by_cases ha : (a == c.ctype) = true
    · rw [if_pos ha]
      rw [lookup_pair_cons, lookup_pair_cons]
      by_cases hk : k = a
      · rw [if_pos hk, if_pos hk]
        have hkc : k = c.ctype := hk.trans (beq_iff_eq.mp ha)
        simp [hkc]
      · rw [if_neg hk, if_neg hk, ih]
    · rw [if_neg ha]
      rw [lookup_pair_cons, lookup_pair_cons]
      by_cases hk : k = a
      · rw [if_pos hk, if_pos hk]
        have hkc : ¬k = c.ctype := by
          subst hk
          exact fun hEq => ha (beq_iff_eq.mpr hEq)
        simp [hkc]
      · rw [if_neg hk, if_neg hk, ih]

theorem parseOne_wellGrouped (cfg : IfaceConfig) (gw gh : Option ℤ)
    (st st' : InterfaceState) (d : Dict) (hok : parseOne cfg gw gh st d = .ok st')
    (hst : wellGrouped st) : wellGrouped st' := by
  obtain ⟨hnd, hent, hgrp, hlook⟩ := hst
  unfold parseOne at hok
  cases h1 : parseStyleClasses cfg.styles d with
  | error e => rw [h1] at hok; cases hok
  | ok c1 =>
    simp only [h1] at hok
    cases h2 : parsePercentageValues cfg.size c1 gw gh with
    | error e => rw [h2] at hok; cases hok
    | ok c2 =>
      simp only [h2] at hok
      cases h3 : parseGridValues cfg.display c2 gw gh cfg.columns with
      | error e => rw [h3] at hok; cases hok
      | ok c3 =>
        simp only [h3] at hok
        cases h4 : convert_component st.components.length (finalizeDict c3) with
        | error e => rw [h4] at hok; cases hok
        | ok c =>
          simp only [h4, Except.ok.injEq] at hok
          subst hok
          set tg := if (st.typeGroups.lookup c.ctype).isSome then st.typeGroups
            else handleNewTypeGroup st.typeGroups c with htg
          have htgnd : (tg.map Prod.fst).Nodup := by
            rw [htg]
            by_cases hs : (st.typeGroups.lookup c.ctype).isSome
            · rw [if_pos hs]; exact hnd
            · rw [if_neg hs]
              unfold handleNewTypeGroup
              rw [List.map_append, List.nodup_append]
              refine ⟨hnd, List.nodup_singleton _, ?_⟩
              intro a ha hb
              simp only [List.map_cons, List.map_nil, List.mem_singleton] at hb
              subst hb
              exact lookup_none_not_mem_keys _ _ (Option.not_isSome_iff_eq_none.mp hs) ha
          have htgent : ∀ p ∈ tg, ∀ c' ∈ p.2, c'.ctype = p.1 := by
            rw [htg]
            by_cases hs : (st.typeGroups.lookup c.ctype).isSome
            · rw [if_pos hs]; exact hent
            · rw [if_neg hs]
              intro p hp c' hc'
              rcases List.mem_append.mp hp with hp | hp
              · exact hent p hp c' hc'
              · rw [List.mem_singleton] at hp
                subst hp
                exact absurd hc' (List.not_mem_nil c')
          have htglook : tg.lookup c.ctype ≠ none := by
            rw [htg]
            by_cases hs : (st.typeGroups.lookup c.ctype).isSome
            · rw [if_pos hs]
              exact fun h => by rw [h] at hs; cases hs
            · rw [if_neg hs]
              unfold handleNewTypeGroup
              rw [lookup_append_or, Option.not_isSome_iff_eq_none.mp hs]
              simp [lookup_pair_cons]
          refine ⟨?_, ?_, ?_, ?_⟩
          · rw [addToTypeGroup_keys]
            exact htgnd
          · intro p hp c' hc'
            obtain ⟨p0, hp0, hpeq⟩ := List.mem_map.mp hp
            by_cases hkey : (p0.1 == c.ctype) = true
            · rw [if_pos hkey] at hpeq
              subst hpeq
              rcases List.mem_append.mp hc' with hc' | hc'
              · exact htgent p0 hp0 c' hc'
              · rw [List.mem_singleton] at hc'
                subst hc'
                exact (beq_iff_eq.mp hkey).symm
            · rw [if_neg hkey] at hpeq
              subst hpeq
              exact htgent p0 hp0 c' hc'
          · intro c' hc'
            rcases List.mem_append.mp hc' with hc' | hc'
            · exact List.mem_append.mpr (Or.inl (hgrp c' hc'))
            · rw [List.mem_singleton] at hc'
              subst hc'
              exact List.mem_append.mpr (Or.inr (List.mem_singleton.mpr rfl))
          · intro c' hc'
            have hpres : ∀ c₀ ∈ st.components, ∃ g, tg.lookup c₀.ctype = some g ∧ c₀ ∈ g := by
              intro c₀ h₀
              obtain ⟨g, hg, hcg⟩ := hlook c₀ h₀
              rw [htg]
              by_cases hs : (st.typeGroups.lookup c.ctype).isSome
              · rw [if_pos hs]
                exact ⟨g, hg, hcg⟩
              · rw [if_neg hs]
                unfold handleNewTypeGroup
                rw [lookup_append_or, hg]
                exact ⟨g, rfl, hcg⟩
            rcases List.mem_append.mp hc' with hc' | hc'
            · obtain ⟨g, hg, hcg⟩ := hpres c' hc'
              rw [addToTypeGroup_lookup, hg]
              by_cases hty : c'.ctype = c.ctype
              · exact ⟨g ++ [c], by simp [hty], List.mem_append.mpr (Or.inl hcg)⟩
              · exact ⟨g, by simp [hty], hcg⟩
            · rw [List.mem_singleton] at hc'
              rw [hc']
              obtain ⟨g, hg⟩ := Option.ne_none_iff_exists.mp htglook
              rw [addToTypeGroup_lookup, ← hg]
              exact ⟨g ++ [c], by simp, List.mem_append.mpr (Or.inr (List.mem_singleton.mpr rfl))⟩

theorem parseLoop_wellGrouped (cfg : IfaceConfig) (gw gh : Option ℤ) :
    ∀ (ds : List Dict) (st st' : InterfaceState),
      parseLoop cfg gw gh st ds = .ok st' → wellGrouped st → wellGrouped st' := by
  intro ds
  induction ds with
  | nil =>
    intro st st' hok hst
    unfold parseLoop at hok
    rw [Except.ok.injEq] at hok
    subst hok
    exact hst
  | cons d rest ih =>
    intro st st' hok hst
    unfold parseLoop at hok
    cases h1 : parseOne cfg gw gh st d with
    | error e => rw [h1] at hok; cases hok
    | ok st1 =>
      rw [h1] at hok
      exact ih st1 st' hok (parseOne_wellGrouped cfg gw gh st st1 d h1 hst)

/-- **C6**: after `Interface._parse_components`, every component in
`_components` is a member of the unified update/draw group and of the
type-keyed dispatch group stored under its own type; the type-group keys
are distinct and every group stored under a key holds only components of
that type, so no component is in zero type-groups or in two. -/
theorem component_groups_invariant (cfg : IfaceConfig) (dicts : List Dict)
    (st : InterfaceState) (hok : parseComponents cfg dicts = .ok st) :
    (st.typeGroups.map Prod.fst).Nodup
    ∧ ∀ c ∈ st.components,
        c ∈ st.group
        ∧ (∃ g, st.typeGroups.lookup c.ctype = some g ∧ c ∈ g)
        ∧ (∀ t g', (t, g') ∈ st.typeGroups → c ∈ g' → t = c.ctype) := by
  have hempty : wellGrouped ⟨[], [], []⟩ :=
    ⟨List.nodup_nil, by simp, by simp, by simp⟩
  have hwg : wellGrouped st := by
    unfold parseComponents at hok
    by_cases hdisp : cfg.display = "grid"
    · rw [if_pos hdisp] at hok
      cases hcols : cfg.columns with
      | none => rw [hcols] at hok; cases hok
      | some cols =>
        cases hrows : cfg.rows with
        | none => rw [hcols, hrows] at hok; cases hok
        | some rows =>
          simp only [hcols, hrows] at hok
          by_cases hz : cols = 0 ∨ rows = 0
          · rw [if_pos hz] at hok; cases hok
          · rw [if_neg hz] at hok
            exact parseLoop_wellGrouped cfg _ _ dicts _ st hok hempty
    · rw [if_neg hdisp] at hok
      exact parseLoop_wellGrouped cfg _ _ dicts _ st hok hempty
  obtain ⟨hnd, hent, hgrp, hlook⟩ := hwg
  refine ⟨hnd, fun c hc => ⟨hgrp c hc, hlook c hc, ?_⟩⟩
  intro t g' htg hcg
  exact (hent (t, g') htg c hcg).symm

/-- Witness for C6: parsing one `button` declaration yields a state whose
single component is in the unified group and exactly in the type group
stored under `"button"`. -/
theorem component_groups_invariant_witness :
    (([("button", [(⟨0, Value.vStr "_", "button"⟩ : Component)])].map Prod.fst).Nodup
    ∧ ∀ c ∈ [(⟨0, Value.vStr "_", "button"⟩ : Component)],
        c ∈ [(⟨0, Value.vStr "_", "button"⟩ : Component)]
        ∧ (∃ g, List.lookup c.ctype
            [("button", [(⟨0, Value.vStr "_", "button"⟩ : Component)])] = some g ∧ c ∈ g)
        ∧ (∀ t g', (t, g') ∈ [("button", [(⟨0, Value.vStr "_", "button"⟩ : Component)])] →
            c ∈ g' → t = c.ctype)) :=
  component_groups_invariant ⟨"main", "default", (100, 100), none, none, none⟩
    [[("type", .vStr "button")]]
    ⟨[⟨0, .vStr "_", "button"⟩], [("button", [⟨0, .vStr "_", "button"⟩])],
      [⟨0, .vStr "_", "button"⟩]⟩ rfl

/-- **C7 counterexample**: the claim says the color fallback leaves "no
background image set"; through the `background` setter with an image
already stored, the failed image load falls back to the color but the old
`_bg_image` is left in place (the getter would keep returning the image). -/
theorem background_stale_image_counterexample :
    parse_background ⟨fun _ => none, fun _ => some 7, fun img _ => img⟩ (1, 1)
      ⟨0, some ⟨(1, 1), 0⟩⟩ (some "red") = .ok ⟨7, some ⟨(1, 1), 0⟩⟩
    ∧ (some (⟨(1, 1), 0⟩ : Image) ≠ (none : Option Image)) :=
  ⟨rfl, by decide⟩

/-- **C7 (amended)**: failing to load a background value as an image is not
an error — the value is then parsed as a color and stored as the fill
color, with the `_bg_image` field left unchanged (so no image is set at
construction, where it starts as `None`, but a previously set image
persists through the setter); an error escapes background parsing only for
a value that fails the image load and is also an invalid color. -/
theorem background_fallback (env : PgEnv) (size : ℤ × ℤ) (st : BgState)
    (s : String) (c : Color) :
    (env.loadImage s = none → env.parseColor s = some c →
      parse_background env size st (some s) =
        .ok { bgColor := c, bgImage := st.bgImage })
    ∧ (env.loadImage s = none → env.parseColor s = none →
      parse_background env size st (some s) = .error "ValueError: invalid color argument")
    ∧ (∀ bg e, parse_background env size st bg = .error e →
      ∃ t, bg = some t ∧ env.loadImage t = none ∧ env.parseColor t = none) := by
  refine ⟨?_, ?_, ?_⟩
  · intro hload hcolor
    simp only [parse_background, hload, hcolor]
  · intro hload hcolor
    simp only [parse_background, hload, hcolor]
  · intro bg e herr
    cases bg with
    | none => cases herr
    | some t =>
      refine ⟨t, rfl, ?_⟩
      cases hload : env.loadImage t with
      | some img => simp [parse_background, hload] at herr
      | none =>
        cases hcolor : env.parseColor t with
        | some col => simp [parse_background, hload, hcolor] at herr
        | none => exact ⟨rfl, rfl⟩

/-- Witness for C7: a failed image load with a valid color stores the color
and leaves the (empty) image field unchanged. -/
theorem background_fallback_witness :
    parse_background ⟨fun _ => none, fun t => if t = "red" then some 5 else none,
      fun img _ => img⟩ (10, 10) ⟨0, none⟩ (some "red") =
      .ok { bgColor := 5, bgImage := (none : Option Image) } :=
  (background_fallback ⟨fun _ => none, fun t => if t = "red" then some 5 else none,
    fun img _ => img⟩ (10, 10) ⟨0, none⟩ "red" 5).1 rfl rfl

/-- **C9**: `Interface.create_binding` returns a binding only when the
target is a handled component with a non-`None` attribute (component
binding) or a callable (callback binding); in every other combination —
e.g. a component target with the attribute left `None` — neither branch
assigns `b` and the trailing `register(b)` raises `UnboundLocalError`, so
nothing is registered. -/
theorem create_binding_branches (c1 : Component) (a1 : String) (c2 : BindTarget)
    (a2 : Option String) :
    ((∃ b, create_binding c1 a1 c2 a2 = .ok b) ↔
      ((∃ ch a, c2 = .component ch ∧ a2 = some a) ∨ ∃ f, c2 = .callback f))
    ∧ (∀ ch, create_binding c1 a1 (.component ch) none =
      .error "UnboundLocalError: local variable b referenced before assignment") := by
  constructor
  · constructor
    · rintro ⟨b, hb⟩
      cases c2 with
      | component ch =>
        cases a2 with
        | none => cases hb
        | some a => exact Or.inl ⟨ch, a, rfl, rfl⟩
      | callback f => exact Or.inr ⟨f, rfl⟩
      | other t => cases hb
    · rintro (⟨ch, a, rfl, rfl⟩ | ⟨f, rfl⟩)
      · exact ⟨.componentBinding c1 a1 ch a, rfl⟩
      · exact ⟨.callbackBinding c1 a1 f, rfl⟩
  · intro ch
    rfl

/-- Witness for C9: a component target with the attribute left `None`
reaches `register` with `b` unassigned and raises instead of registering. -/
theorem create_binding_branches_witness :
    create_binding ⟨0, .vStr "a", "t"⟩ "x" (.component ⟨1, .vStr "b", "t"⟩) none =
      .error "UnboundLocalError: local variable b referenced before assignment" :=
  (create_binding_branches ⟨0, .vStr "a", "t"⟩ "x"
    (.component ⟨1, .vStr "b", "t"⟩) none).2 ⟨1, .vStr "b", "t"⟩

/-- **C10**: `Interface.__getitem__` on a key matching no component raises
the `ValueError` propagated from `list.index`; `list.index` never returns a
negative index, so the `idx != -1` guard always holds and the `return None`
branch is unreachable — no lookup ever produces `None`. -/
theorem getitem_missing_raises (comps : List Component) (key : String)
    (habs : ∀ c ∈ comps, componentEqKey c key = false) :
    getitem comps key = .error "ValueError: not in list"
    ∧ (∀ (l : List Component) (k : String) (i : ℤ), list_index l k = .ok i → 0 ≤ i)
    ∧ (∀ (l : List Component) (k : String), getitem l k ≠ .ok none) := by
  have hnonneg : ∀ (l : List Component) (k : String) (i : ℤ),
      list_index l k = .ok i → 0 ≤ i := by
    intro l
    induction l with
    | nil =>
      intro k i h
      cases h
    | cons x rest ih =>
      intro k i h
      unfold list_index at h
      by_cases hx : componentEqKey x k = true
      · rw [if_pos hx] at h
        cases h
        exact le_refl 0
      · rw [if_neg hx] at h
        cases hrec : list_index rest k with
        | error e => rw [hrec] at h; cases h
        | ok j =>
          rw [hrec] at h
          cases h
          have := ih k j hrec
          omega
  have herr : list_index comps key = .error "ValueError: not in list" := by
    induction comps with
    | nil => rfl
    | cons x rest ih =>
      have hx : componentEqKey x key = false := habs x (List.mem_cons_self x rest)
      have hrest : ∀ c ∈ rest, componentEqKey c key = false :=
        fun c hc => habs c (List.mem_cons_of_mem x hc)
      have hrec := ih hrest
      unfold list_index
      rw [if_neg (by rw [hx]; exact fun h => nomatch h), hrec]
  refine ⟨?_, hnonneg, ?_⟩
  · unfold getitem
    rw [herr]
  · intro l k hok
    unfold getitem at hok
    cases hidx : list_index l k with
    | error e => rw [hidx] at hok; cases hok
    | ok i =>
      simp only [hidx] at hok
      have hge := hnonneg l k i hidx
      have hne : i ≠ -1 := by omega
      rw [if_pos hne] at hok
      cases hget : l.get? i.toNat with
      | none => rw [hget] at hok; cases hok
      | some cfound => rw [hget] at hok; cases hok

/-- Witness for C10: looking up a key in an interface with no matching
component (here, an empty component list) raises `ValueError`. -/
theorem getitem_missing_raises_witness :
    getitem [] "score" = .error "ValueError: not in list"
    ∧ (∀ (l : List Component) (k : String) (i : ℤ), list_index l k = .ok i → 0 ≤ i)
    ∧ (∀ (l : List Component) (k : String), getitem l k ≠ .ok none) :=
  getitem_missing_raises [] "score" (fun c hc => absurd hc (List.not_mem_nil c))

/-! ## Sentinel-id and mapping lemmas -/

theorem lookup_mem {β : Type} (l : List (String × β)) (k : String) (v : β)
    (h : l.lookup k = some v) : (k, v) ∈ l := by
  induction l with
  | nil => cases h
  | cons p rest ih =>
    obtain ⟨a, b⟩ := p
    rw [lookup_pair_cons] at h
    by_cases hk : k = a
    · rw [if_pos hk] at h
      cases h
      subst hk
      exact List.mem_cons_self _ _
    · rw [if_neg hk] at h
      exact List.mem_cons_of_mem _ (ih h)

theorem specEarliestClassValue_none (sc : Styles) (l : List String) (k : String)
    (hnos : ∀ p ∈ sc, p.2.lookup k = none) :
    specEarliestClassValue sc l k = none := by
  induction l with
  | nil => rfl
  | cons s rest ih =>
    cases hs : sc.lookup s with
    | none =>
      simp only [specEarliestClassValue, hs]
      exact ih
    | some m =>
      have hm : m.lookup k = none := hnos (s, m) (lookup_mem sc s m hs)
      simp only [specEarliestClassValue, hs, hm]
      exact ih

theorem parseStyleClasses_absent (styles : Option Styles) (comp d : Dict) (k : String)
    (hok : parseStyleClasses styles comp = .ok d) (habs : dget comp k = none)
    (hnos : ∀ sc, styles = some sc → ∀ p ∈ sc, p.2.lookup k = none) :
    dget d k = none := by
  unfold parseStyleClasses at hok
  cases hsty : dget comp "style" with
  | none => simp only [hsty] at hok; cases hok; exact habs
  | some sv =>
    cases styles with
    | none => simp only [hsty] at hok; cases hok; exact habs
    | some sc =>
      have hnos' : ∀ p ∈ sc, p.2.lookup k = none := hnos sc rfl
      simp only [hsty] at hok
      cases sv with
      | vStr s =>
        cases hsc : sc.lookup s with
        | some m =>
          simp only [hsc] at hok
          cases hok
          rw [dget_applyClass, habs]
          simpa using hnos' (s, m) (lookup_mem sc s m hsc)
        | none =>
          simp only [hsc] at hok
          by_cases hlen : (s.length == 0) = true
          · rw [if_pos hlen] at hok
            cases hok
            exact habs
          · rw [if_neg hlen] at hok
            cases hok
            rw [dget_applyStylesList, habs, specEarliestClassValue_none sc _ k hnos']
            rfl
      | vStrList l =>
        have hok' : (if (l.length == 0) = true then Except.ok comp
            else Except.ok (applyStylesList sc l comp)) = Except.ok (ε := String) d := hok
        by_cases hlen : (l.length == 0) = true
        · rw [if_pos hlen] at hok'
          cases hok'
          exact habs
        · rw [if_neg hlen] at hok'
          cases hok'
          rw [dget_applyStylesList, habs, specEarliestClassValue_none sc _ k hnos']
          rfl
      | vInt n => cases hok
      | vNone => cases hok
      | vPair a b => cases hok

theorem parsePercentageValues_preserves (size : ℤ × ℤ) (comp d : Dict)
    (gw gh : Option ℤ) (k : String)
    (hok : parsePercentageValues size comp gw gh = .ok d)
    (hw : k ≠ "width") (hh : k ≠ "height") (hx : k ≠ "x") (hy : k ≠ "y") :
    dget d k = dget comp k := by
  unfold parsePercentageValues at hok
  cases h1 : convertPct comp "width" (if dmem comp "grid_cell" then gw else some size.1) with
  | error e => simp [h1] at hok
  | ok c1 =>
    simp only [h1] at hok
    cases h2 : convertPct c1 "height" (if dmem comp "grid_cell" then gh else some size.2) with
    | error e => simp [h2] at hok
    | ok c2 =>
      simp only [h2] at hok
      cases h3 : convertPct c2 "x" (if dmem comp "grid_cell" then gw else some size.1) with
      | error e => simp [h3] at hok
      | ok c3 =>
        simp only [h3] at hok
        rw [convertPct_preserves c3 d "y" k _ hok hy,
          convertPct_preserves c2 c3 "x" k _ h3 hx,
          convertPct_preserves c1 c2 "height" k _ h2 hh,
          convertPct_preserves comp c1 "width" k _ h1 hw]

theorem parseGridValues_preserves (display : String) (comp d : Dict)
    (gw gh cols : Option ℤ) (k : String)
    (hok : parseGridValues display comp gw gh cols = .ok d)
    (hx : k ≠ "x") (hy : k ≠ "y") (hw : k ≠ "width") (hh : k ≠ "height") :
    dget d k = dget comp k := by
  unfold parseGridValues at hok
  by_cases hdisp : display ≠ "grid"
  · rw [if_pos hdisp] at hok
    cases hok
    rfl
  · rw [if_neg hdisp] at hok
    cases hcell : dget comp "grid_cell" with
    | none =>
      simp only [hcell, Except.ok.injEq] at hok
      subst hok
      rfl
    | some v =>
      cases v with
      | vInt cell =>
        cases hcols : cols with
        | none => simp [hcell, hcols] at hok
        | some colsv =>
          cases hgw : gw with
          | none => simp [hcell, hcols, hgw] at hok
          | some gwv =>
            cases hgh : gh with
            | none => simp [hcell, hcols, hgw, hgh] at hok
            | some ghv =>
              simp only [hcell, hcols, hgw, hgh, Except.ok.injEq] at hok
              subst hok
              rw [dget_gridDefaultSize_ne _ _ _ _ hh, dget_gridDefaultSize_ne _ _ _ _ hw,
                dget_dset_ne _ _ _ _ hy, dget_dset_ne _ _ _ _ hx]
      | vStr s => simp [hcell] at hok
      | vStrList l => simp [hcell] at hok
      | vNone => simp [hcell] at hok
      | vPair a b => simp [hcell] at hok

theorem finalizeDict_id_default (c3 : Dict) (h : dget c3 "id" = none) :
    dget (finalizeDict c3) "id" = some (.vStr "_") := by
  unfold finalizeDict
  have hmem : dmem c3 "id" = false := by simp [dmem, h]
  rw [if_neg (by rw [hmem]; exact fun hc => nomatch hc)]
  rw [dget_dset_ne _ _ _ _ (by decide), dget_dset_ne _ _ _ _ (by decide), dget_dset_self]

theorem msetV_fresh (m : List (Value × Component)) (k : Value) (c : Component)
    (h : ∀ p ∈ m, p.1 ≠ k) : msetV m k c = m ++ [(k, c)] := by
  induction m with
  | nil => rfl
  | cons p rest ih =>
    obtain ⟨a, b⟩ := p
    have ha : a ≠ k := h (a, b) (List.mem_cons_self _ _)
    unfold msetV
    rw [if_neg ha, ih (fun p hp => h p (List.mem_cons_of_mem _ hp))]
    rfl

theorem component_mapping_go (comps : List Component) :
    ∀ m : List (Value × Component),
      (∀ c ∈ comps, c.cid ≠ .vStr "_" → ∀ p ∈ m, p.1 ≠ c.cid) →
      comps.Pairwise (fun a b => a.cid ≠ .vStr "_" → b.cid ≠ .vStr "_" → a.cid ≠ b.cid) →
      comps.foldl (fun m c => if c.cid ≠ .vStr "_" then msetV m c.cid c else m) m =
        m ++ (comps.filter (fun c => decide (c.cid ≠ .vStr "_"))).map (fun c => (c.cid, c)) := by
  induction comps with
  | nil =>
    intro m hfresh hpw
    simp
  | cons c rest ih =>
    intro m hfresh hpw
    rw [List.foldl_cons]
    rw [List.pairwise_cons] at hpw
    by_cases hs : c.cid ≠ .vStr "_"
    · rw [if_pos hs]
      rw [msetV_fresh m c.cid c (hfresh c (List.mem_cons_self _ _) hs)]
      rw [ih (m ++ [(c.cid, c)]) ?_ hpw.2]
      · rw [List.filter_cons_of_pos (by simpa using hs), List.map_cons, List.append_assoc]
        rfl
      · intro c' hc' hs' p hp
        rcases List.mem_append.mp hp with hp | hp
        · exact hfresh c' (List.mem_cons_of_mem _ hc') hs' p hp
        · rw [List.mem_singleton] at hp
          subst hp
          exact hpw.1 c' hc' hs hs' 
    · rw [if_neg hs]
      rw [ih m (fun c' hc' => hfresh c' (List.mem_cons_of_mem _ hc')) hpw.2]
      rw [List.filter_cons_of_neg (by simpa using hs)]

/-- **C8**: a component dictionary parsed without an `"id"` key (and whose
style classes do not inject one) gets the sentinel id `"_"`; any number of
such components may coexist (parsing never rejects duplicate sentinel
ids); and `component_mapping` contains exactly the components whose id
differs from `"_"` (ids being unique per interface for the non-sentinel
components, per the data model). -/
theorem sentinel_id_and_mapping (cfg : IfaceConfig) (gw gh : Option ℤ)
    (st st' : InterfaceState) (comp : Dict)
    (hok : parseOne cfg gw gh st comp = .ok st')
    (hid : dget comp "id" = none)
    (hsty : ∀ sc, cfg.styles = some sc → ∀ p ∈ sc, p.2.lookup "id" = none) :
    (∃ c, st'.components = st.components ++ [c] ∧ c.cid = .vStr "_")
    ∧ (∀ comps : List Component,
        comps.Pairwise (fun a b => a.cid ≠ .vStr "_" → b.cid ≠ .vStr "_" → a.cid ≠ b.cid) →
        (component_mapping comps).map Prod.snd =
          comps.filter (fun c => decide (c.cid ≠ .vStr "_"))) := by
  constructor
  · unfold parseOne at hok
    cases h1 : parseStyleClasses cfg.styles comp with
    | error e => rw [h1] at hok; cases hok
    | ok c1 =>
      simp only [h1] at hok
      cases h2 : parsePercentageValues cfg.size c1 gw gh with
      | error e => rw [h2] at hok; cases hok
      | ok c2 =>
        simp only [h2] at hok
        cases h3 : parseGridValues cfg.display c2 gw gh cfg.columns with
        | error e => rw [h3] at hok; cases hok
        | ok c3 =>
          simp only [h3] at hok
          have hid1 : dget c1 "id" = none :=
            parseStyleClasses_absent cfg.styles comp c1 "id" h1 hid hsty
          have hid2 : dget c2 "id" = none := by
            rw [parsePercentageValues_preserves cfg.size c1 c2 gw gh "id" h2
              (by decide) (by decide) (by decide) (by decide)]
            exact hid1
          have hid3 : dget c3 "id" = none := by
            rw [parseGridValues_preserves cfg.display c2 c3 gw gh cfg.columns "id" h3
              (by decide) (by decide) (by decide) (by decide)]
            exact hid2
          have hfin : dget (finalizeDict c3) "id" = some (.vStr "_") :=
            finalizeDict_id_default c3 hid3
          cases h4 : convert_component st.components.length (finalizeDict c3) with
          | error e => rw [h4] at hok; cases hok
          | ok c =>
            simp only [h4, Except.ok.injEq] at hok
            subst hok
            refine ⟨c, rfl, ?_⟩
            unfold convert_component at h4
            cases hty : dget (finalizeDict c3) "type" with
            | none => rw [hty] at h4; cases h4
            | some tv =>
              cases tv with
              | vStr t =>
                rw [hty, hfin] at h4
                cases h4
                rfl
              | vInt n => simp [hty] at h4
              | vStrList l => simp [hty] at h4
              | vNone => simp [hty] at h4
              | vPair a b => simp [hty] at h4
  · intro comps hpw
    unfold component_mapping
    rw [component_mapping_go comps [] (by intro c hc hs p hp; cases hp) hpw]
    rw [List.nil_append, List.map_map]
    have : (Prod.snd ∘ fun c : Component => (c.cid, c)) = id := rfl
    rw [this, List.map_id]

/-- Witness for C8: one id-less `text` declaration gets the sentinel id,
and the mapping of a list with one addressable and two sentinel components
contains exactly the addressable one. -/
theorem sentinel_id_and_mapping_witness :
    (∃ c, ([(⟨0, Value.vStr "_", "text"⟩ : Component)] : List Component) =
        [] ++ [c] ∧ c.cid = .vStr "_")
    ∧ (∀ comps : List Component,
        comps.Pairwise (fun a b => a.cid ≠ .vStr "_" → b.cid ≠ .vStr "_" → a.cid ≠ b.cid) →
        (component_mapping comps).map Prod.snd =
          comps.filter (fun c => decide (c.cid ≠ .vStr "_"))) ∧
    component_mapping
        [⟨0, .vStr "score", "text"⟩, ⟨1, .vStr "_", "text"⟩, ⟨2, .vStr "_", "text"⟩] =
      [(.vStr "score", ⟨0, .vStr "score", "text"⟩)] := by
  have h := sentinel_id_and_mapping ⟨"main", "default", (100, 100), none, none, none⟩
    none none ⟨[], [], []⟩
    ⟨[⟨0, .vStr "_", "text"⟩], [("text", [⟨0, .vStr "_", "text"⟩])], [⟨0, .vStr "_", "text"⟩]⟩
    [("type", .vStr "text")] rfl rfl (fun sc hsc => nomatch hsc)
  exact ⟨h.1, h.2, rfl⟩

end PyInterfacer
